import Mathlib

/-!
Verification development for `ci/praktika/gh.py`: a thin GitHub CLI integration
layer.  Strings are embedded as `List Char`; every Python string operation used
by the code (substring search, regex span substitution with a non-greedy body
between two literal delimiters, slicing, stable sorting by a key) is embedded
explicitly below.  External effects (the `gh` subprocess, the praktika `Info`,
`Settings` and `Result` helpers that live outside this file's sources) are
parameters of the embedded functions.
-/

/-! ## Basic string (List Char) utilities -/

/-- true when `pat` is a prefix of `hay` (Python `hay.startswith(pat)`). -/
def startsWith (hay pat : List Char) : Bool :=
  List.isPrefixOf pat hay

/-- Index of the first occurrence of `pat` in `hay`, if any
(Python `hay.find(pat)` restricted to found results). -/
def findSub (pat : List Char) : List Char → Option Nat
  | [] => if startsWith [] pat then some 0 else none
  | c :: rest =>
    if startsWith (c :: rest) pat then some 0
    else Option.map Nat.succ (findSub pat rest)

/-- Python `pat in hay`. -/
def containsSub (hay pat : List Char) : Bool :=
  (findSub pat hay).isSome

/-- Number of positions of `hay` (including the final empty suffix) at which
`pat` occurs.  Used to state "exactly one occurrence of a delimiter". -/
def countSub (pat : List Char) : List Char → Nat
  | [] => if startsWith [] pat then 1 else 0
  | c :: rest => (if startsWith (c :: rest) pat then 1 else 0) + countSub pat rest

/-- Number of positions strictly inside `A` at which `pat` occurs in `A ++ B`
(occurrences fully inside `A` plus occurrences crossing into `B`). -/
def countCross (pat : List Char) : List Char → List Char → Nat
  | [], _ => 0
  | a :: rest, B =>
    (if startsWith ((a :: rest) ++ B) pat then 1 else 0) + countCross pat rest B

/-- Python whitespace characters recognised by `str.strip()`. -/
def isPySpace (c : Char) : Bool :=
  c = ' ' || c = '\t' || c = '\n' || c = '\r' || c = '\x0b' || c = '\x0c'

/-- Python `s.strip()`. -/
def pyStrip (s : List Char) : List Char :=
  ((s.dropWhile isPySpace).reverse.dropWhile isPySpace).reverse

/-- Python `sep.join(items)`. -/
def joinSep (sep : List Char) : List (List Char) → List Char
  | [] => []
  | [x] => x
  | x :: y :: rest => x ++ sep ++ joinSep sep (y :: rest)

/-- Concatenation of a list of strings (`"".join`). -/
def joinAll (xs : List (List Char)) : List Char :=
  xs.foldr (· ++ ·) []

/-! ## Updateable-comment merge engine (`GH.post_updateable_comment`) -/

/-- Newline as a one-character string. -/
def nl : List Char := ['\n']

/-- Fixed text before the tag in the start marker
(`"<!-- CI automatic comment start :"` of gh.py). -/
def startPre : List Char := "<!-- CI automatic comment start :".toList

/-- Fixed text before the tag in the end marker
(`"<!-- CI automatic comment end :"` of gh.py). -/
def endPre : List Char := "<!-- CI automatic comment end :".toList

/-- Fixed text after the tag in both markers (`": -->"`). -/
def sufMark : List Char := ": -->".toList

/-- `START.format(TAG=tag)` of gh.py. -/
def START (tag : List Char) : List Char := startPre ++ tag ++ sufMark

/-- `END.format(TAG=tag)` of gh.py. -/
def END (tag : List Char) : List Char := endPre ++ tag ++ sufMark

/-- Fuel-driven embedding of
`re.sub(re.escape(s) + ".*?" + re.escape(e), rep, hay, flags=re.DOTALL)`
with literal delimiters `s`, `e`: repeatedly, the leftmost match starts at the
first occurrence of `s` and ends at the first occurrence of `e` at or after
that occurrence's end (non-greedy), scanning resumes after the match.
A position where `s` occurs with no `e` after it admits no match anywhere
later either, so the scan can jump directly to the first `s`. -/
def subSpansF (s e rep : List Char) : Nat → List Char → List Char
  | 0, hay => hay
  | Nat.succ n, hay =>
    match findSub s hay with
    | none => hay
    | some i =>
      match findSub e (List.drop (i + s.length) hay) with
      | none => hay
      | some j =>
        List.take i hay ++ rep ++
          subSpansF s e rep n (List.drop (i + s.length + j + e.length) hay)

/-- The span substitution with enough fuel for the whole input (each step
consumes at least `s.length ≥ 1` characters for the nonempty markers used by
the code, so `hay.length + 1` steps always suffice). -/
def subSpans (s e rep hay : List Char) : List Char :=
  subSpansF s e rep (hay.length + 1) hay

/-- One iteration of the merge loop of `post_updateable_comment`: if both
markers for `tag` occur in `body`, replace every non-greedy `START..END` span
with `START\n{content}\n{END}`; otherwise append `START\n{content}\n{END}\n`. -/
def mergeTag (body tag content : List Char) : List Char :=
  let s := START tag
  let e := END tag
  if containsSub body s && containsSub body e then
    subSpans s e (s ++ nl ++ content ++ nl ++ e) body
  else
    body ++ s ++ nl ++ content ++ nl ++ e ++ nl

/-! ## Comment selection and publication (`GH.post_updateable_comment`) -/

/-- A fetched remote comment: provider id and body. -/
structure RComment where
  id : Nat
  body : List Char
deriving DecidableEq, Repr

/-- The match test of the selection loop: the comment body contains both
markers for `tag`. -/
def matchesTag (tag : List Char) (c : RComment) : Bool :=
  containsSub c.body (START tag) && containsSub c.body (END tag)

/-- Python truthiness of the `comment_id` variable (`None` is falsy and so is
the integer `0`). -/
def truthyId : Option Nat → Bool
  | some i => i != 0
  | none => false

/-- The nested selection loop of `post_updateable_comment`: for each tag in
request order, the first comment whose body contains both markers is recorded
(overwriting the running state), and the outer loop stops as soon as the
recorded id is truthy. -/
def selectGo (comments : List RComment) :
    List (List Char) → Option Nat × List Char → Option Nat × List Char
  | [], st => st
  | tag :: rest, st =>
    let st' := match comments.find? (matchesTag tag) with
      | some c => (some c.id, c.body)
      | none => st
    if truthyId st'.1 then st' else selectGo comments rest st'

/-- Target-comment selection, started from `comment_id = None`,
`existing_body = ""`. -/
def selectTarget (tags : List (List Char)) (comments : List RComment) :
    Option Nat × List Char :=
  selectGo comments tags (none, [])

/-- The externally visible action taken by `post_updateable_comment`. -/
inductive PostAction where
  | patch (id : Nat) (body : List Char)
  | create (body : List Char)
  | failNotFound
deriving DecidableEq, Repr

/-- `GH.post_updateable_comment`, with the fetched comments as input and the
issued command as output: select a target, merge every tag/content pair into
its body (or into empty text), then PATCH the target, create a new comment, or
fail when `only_update` is set and no target was found. -/
def post_updateable_comment (tcs : List (List Char × List Char))
    (comments : List RComment) (only_update : Bool) : PostAction :=
  let st := selectTarget (tcs.map Prod.fst) comments
  let body := tcs.foldl (fun b tc => mergeTag b tc.1 tc.2) st.2
  match st.1 with
  | some i =>
    if i != 0 then PostAction.patch i body
    else if !only_update then PostAction.create body
    else PostAction.failNotFound
  | none =>
    if !only_update then PostAction.create body
    else PostAction.failNotFound

/-- Definition following the claim's words, for comparison with the code's
selection: the first comment, in fetched order, whose body matches any
requested tag. -/
def firstCommentAnyTag (tags : List (List Char)) (comments : List RComment) :
    Option RComment :=
  comments.find? (fun c => tags.any (fun t => matchesTag t c))

/-! ## Command executor (`GH.do_command_with_retries`) -/

/-- Exit code, stdout and stderr of one external invocation. -/
structure ExecResult where
  code : Int
  out : List Char
  err : List Char

/-- The fixed permanent-failure markers of `do_command_with_retries`. -/
def isPermanentErr (err : List Char) : Bool :=
  containsSub err ("Validation Failed".toList) ||
  containsSub err ("Bad credentials".toList) ||
  containsSub err ("Resource not accessible".toList)

/-- The retry loop: `exec` gives the result of each successive attempt (the
external command), the accumulators count attempts performed and sleeps taken.
Python sleeps 5 seconds after every non-permanent failure, also on the last
iteration.  Returns (result, attempts used, sleeps performed). -/
def retryLoop (exec : Nat → ExecResult) : Nat → Nat → Nat → Bool × Nat × Nat
  | 0, used, sleeps => (false, used, sleeps)
  | Nat.succ k, used, sleeps =>
    let r := exec used
    if r.code == 0 then (true, used + 1, sleeps)
    else if isPermanentErr r.err then (false, used + 1, sleeps)
    else retryLoop exec k (used + 1) (sleeps + 1)

/-- `GH.do_command_with_retries`; `maxRetries` stands for the external
`Settings.MAX_RETRIES_GH`. -/
def do_command_with_retries (maxRetries : Nat) (exec : Nat → ExecResult) :
    Bool × Nat × Nat :=
  retryLoop exec maxRetries 0 0

/-! ## Metadata accessors (`GH.get_pr_contributors`,
`GH.get_pr_title_body_labels`, `GH.post_pr_comment`) -/

/-- Dynamic JSON values, the possible results of the external `json.loads`. -/
inductive JVal where
  | null
  | bool (b : Bool)
  | num (n : Int)
  | str (s : List Char)
  | arr (xs : List JVal)
  | obj (kvs : List (List Char × JVal))

/-- Python truthiness of a JSON value. -/
def truthyJV : JVal → Bool
  | JVal.null => false
  | JVal.bool b => b
  | JVal.num n => n != 0
  | JVal.str s => !s.isEmpty
  | JVal.arr xs => !xs.isEmpty
  | JVal.obj kvs => !kvs.isEmpty

/-- Python `dict.get(key)` on a parsed JSON object. -/
def objGet (kvs : List (List Char × JVal)) (k : List Char) : Option JVal :=
  (kvs.find? (fun p => p.1 == k)).map Prod.snd

/-- The list comprehension `[l["name"] for l in labels]`: `none` models an
uncaught exception (an element is not an object or lacks the key). -/
def getNames : List JVal → Option (List JVal)
  | [] => some []
  | JVal.obj kvs :: rest =>
    match objGet kvs ("name".toList) with
    | some v => (getNames rest).map (v :: ·)
    | none => none
  | _ :: _ => none

/-- `GH.get_pr_contributors` after the fetch: `json.loads(out) if out.strip()
else []`, with every exception caught and degraded to `[]`.  `jsonLoads`
stands for the external `json.loads` (`none` models `JSONDecodeError`). -/
def get_pr_contributors (jsonLoads : List Char → Option JVal)
    (out : List Char) : JVal :=
  if pyStrip out = [] then JVal.arr []
  else
    match jsonLoads out with
    | some v => v
    | none => JVal.arr []

/-- `GH.get_pr_title_body_labels` after the fetch.  Only `JSONDecodeError`
is caught; a payload that parses but is not an object, or whose labels are
malformed, raises (modelled by `none` in the result). -/
def get_pr_title_body_labels (jsonLoads : List Char → Option JVal)
    (out : List Char) : Option (JVal × JVal × List JVal) :=
  if pyStrip out = [] then some (JVal.str [], JVal.str [], [])
  else
    match jsonLoads out with
    | none => some (JVal.str [], JVal.str [], [])
    | some (JVal.obj kvs) =>
      let title := (objGet kvs ("title".toList)).getD (JVal.str [])
      let body0 := (objGet kvs ("body".toList)).getD JVal.null
      let body := if truthyJV body0 then body0 else JVal.str []
      match (objGet kvs ("labels".toList)).getD (JVal.arr []) with
      | JVal.arr xs => (getNames xs).map (fun ns => (title, body, ns))
      | _ => none
    | some _ => none

/-- The externally visible action taken by `post_pr_comment`. -/
inductive PRCommentAction where
  | patchComment (id : Nat)
  | newComment
deriving DecidableEq, Repr

/-- `GH.post_pr_comment`: when the update-substring is nonempty, parse the
fetched comment list (empty or unparseable responses degrade to `[]`) and
PATCH the first comment whose body contains the substring; otherwise fall
through to creating a new comment.  `parseComments` stands for the external
`json.loads` on the jq-built array. -/
def post_pr_comment (substr : List Char) (raw : List Char)
    (parseComments : List Char → Option (List RComment)) : PRCommentAction :=
  if substr.isEmpty then PRCommentAction.newComment
  else
    let comments := if pyStrip raw = [] then [] else (parseComments raw).getD []
    match comments.find? (fun c => containsSub c.body substr) with
    | some c => PRCommentAction.patchComment c.id
    | none => PRCommentAction.newComment

/-! ## Commit statuses (`GH.post_commit_status`,
`GH.post_foreign_commit_status`, `GH.convert_to_gh_status`) -/

/-- Modelled from the spec: the praktika `Result.Status` enum
(PENDING/RUNNING/SUCCESS/FAILED/ERROR); `blank` stands for the empty-string
status the code gives synthetic sentinel entries. -/
inductive Status where
  | pending
  | success
  | failed
  | error
  | running
  | blank
deriving DecidableEq, Repr

/-- `GH.convert_to_gh_status` (dictionary lookup with default `"error"`). -/
def convert_to_gh_status : Status → List Char
  | Status.pending => "pending".toList
  | Status.success => "success".toList
  | Status.failed => "failure".toList
  | Status.error => "error".toList
  | Status.running => "pending".toList
  | Status.blank => "error".toList

/-- The `-f` field arguments built by `GH.post_commit_status`: the description
is truncated by `description[:80]` before formatting. -/
def post_commit_status_fields (name : List Char) (status : Status)
    (description url : List Char) : List (List Char) :=
  [ "state=".toList ++ convert_to_gh_status status,
    "target_url=".toList ++ url,
    "description=".toList ++ List.take 80 description,
    "context=".toList ++ name ]

/-- The `-f` field arguments built by `GH.post_foreign_commit_status`
(identical truncation `description[:80]`). -/
def post_foreign_commit_status_fields (name : List Char) (status : Status)
    (description url : List Char) : List (List Char) :=
  [ "state=".toList ++ convert_to_gh_status status,
    "target_url=".toList ++ url,
    "description=".toList ++ List.take 80 description,
    "context=".toList ++ name ]

/-! ## Failure summary reducer (`GH.ResultSummaryForGH`) -/

/-- A praktika result node: name, status, ordered children, and the
`ext["hlabels"]` list of (label, href) pairs (the code tolerates other shapes
of `ext` by degrading the info string to empty; only the well-typed shape is
modelled, which is the only one producing nonempty info). -/
inductive Result where
  | mk (name : List Char) (status : Status) (results : List Result)
       (start_time : Option Int) (duration : Option Int)
       (ext_hlabels : List (List Char × List Char))

/-- Node name. -/
def Result.name : Result → List Char
  | Result.mk n _ _ _ _ _ => n

/-- Node status. -/
def Result.status : Result → Status
  | Result.mk _ s _ _ _ _ => s

/-- Node children. -/
def Result.results : Result → List Result
  | Result.mk _ _ rs _ _ _ => rs

/-- Node start time. -/
def Result.start_time : Result → Option Int
  | Result.mk _ _ _ t _ _ => t

/-- Node duration. -/
def Result.duration : Result → Option Int
  | Result.mk _ _ _ _ d _ => d

/-- Node `ext["hlabels"]`. -/
def Result.ext_hlabels : Result → List (List Char × List Char)
  | Result.mk _ _ _ _ _ h => h

/-- Modelled from the spec: praktika's `Result.is_completed` (not under the
sources) — a node is completed iff its status is terminal
(SUCCESS/FAILED/ERROR). -/
def is_completed (r : Result) : Bool :=
  r.status == Status.success || r.status == Status.failed ||
    r.status == Status.error

/-- Modelled from the spec: praktika's `Result.is_ok` (not under the
sources) — a node is ok iff its status is SUCCESS. -/
def is_ok (r : Result) : Bool :=
  r.status == Status.success

/-- The severity key of `from_result`: FAILED first, then ERROR, then
everything else. -/
def priority (r : Result) : Nat :=
  if r.status == Status.failed then 0
  else if r.status == Status.error then 1
  else 2

/-- Stable insertion of `x` after every earlier element whose key is
strictly smaller, before every element with an equal or larger key that came
later in the original list. -/
def insertStable (key : Result → Nat) (x : Result) : List Result → List Result
  | [] => [x]
  | y :: ys =>
    if key y < key x then y :: insertStable key x ys else x :: y :: ys

/-- Embedding of Python's `sorted(lst, key=key)`: a stable sort by the key
(equal keys keep their original relative order). -/
def stableSortByKey (key : Result → Nat) (l : List Result) : List Result :=
  l.foldr (insertStable key) []

mutual

/-- One step of the `flatten_results` generator of `from_result`: a leaf
yields itself, a node with children is replaced by its flattened children. -/
def flattenOne : Result → List Result
  | Result.mk n s [] t d h => [Result.mk n s [] t d h]
  | Result.mk _ _ (r :: rs) _ _ _ => flatten_results (r :: rs)

/-- Body of the depth-first traversal over a children list. -/
def flatten_results : List Result → List Result
  | [] => []
  | r :: tail => flattenOne r ++ flatten_results tail

end

/-- `extract_hlabels_info`: comma-joined markdown links for pairs with both
components nonempty (Python truthiness of the text and href strings). -/
def extract_hlabels_info (r : Result) : List Char :=
  joinSep (", ".toList)
    ((r.ext_hlabels.filter (fun p => !p.1.isEmpty && !p.2.isEmpty)).map
      (fun p => "[".toList ++ p.1 ++ "](".toList ++ p.2 ++ ")".toList))

/-- The `ResultSummaryForGH` dataclass. -/
inductive ResultSummaryForGH where
  | mk (name : List Char) (status : Status) (sha : List Char)
       (start_time : Option Int) (duration : Option Int)
       (failed_results : List ResultSummaryForGH)
       (info : List Char) (comment : List Char)

/-- Summary name. -/
def ResultSummaryForGH.name : ResultSummaryForGH → List Char
  | ResultSummaryForGH.mk n _ _ _ _ _ _ _ => n

/-- Summary status. -/
def ResultSummaryForGH.status : ResultSummaryForGH → Status
  | ResultSummaryForGH.mk _ s _ _ _ _ _ _ => s

/-- Summary sha. -/
def ResultSummaryForGH.sha : ResultSummaryForGH → List Char
  | ResultSummaryForGH.mk _ _ h _ _ _ _ _ => h

/-- Summary nested failures. -/
def ResultSummaryForGH.failed_results : ResultSummaryForGH → List ResultSummaryForGH
  | ResultSummaryForGH.mk _ _ _ _ _ f _ _ => f

/-- Summary info string. -/
def ResultSummaryForGH.info : ResultSummaryForGH → List Char
  | ResultSummaryForGH.mk _ _ _ _ _ _ i _ => i

/-- Summary comment string. -/
def ResultSummaryForGH.comment : ResultSummaryForGH → List Char
  | ResultSummaryForGH.mk _ _ _ _ _ _ _ c => c

/-- The cap constant `MAX_TEST_CASES_PER_JOB` of `from_result`. -/
def MAX_TEST_CASES_PER_JOB : Nat := 10

/-- The cap constant `MAX_JOBS_PER_SUMMARY` of `from_result`. -/
def MAX_JOBS_PER_SUMMARY : Nat := 15

/-- Name of the synthetic placeholder entry (`f"{remaining} more not shown"`). -/
def sentinelName (n : Nat) : List Char :=
  (Nat.repr n).toList ++ " more not shown".toList

/-- A flat summary entry built from a result node
(`cls(name=r.name, status=r.status, info=extract_hlabels_info(r), comment="")`). -/
def entryOf (r : Result) : ResultSummaryForGH :=
  ResultSummaryForGH.mk r.name r.status [] none none [] (extract_hlabels_info r) []

/-- The loop body of `from_result` for one selected failing child: collect its
completed-and-not-ok flattened leaves, cap them at `MAX_TEST_CASES_PER_JOB`
appending the placeholder entry (with the empty-string status) when the cap
was exceeded. -/
def jobSummary (sub : Result) : ResultSummaryForGH :=
  let frs := ((flatten_results sub.results).filter
      (fun r => is_completed r && !is_ok r)).map entryOf
  let frs' :=
    if frs.length > MAX_TEST_CASES_PER_JOB then
      frs.take MAX_TEST_CASES_PER_JOB ++
        [ResultSummaryForGH.mk (sentinelName (frs.length - MAX_TEST_CASES_PER_JOB))
          Status.blank [] none none [] [] []]
    else frs
  ResultSummaryForGH.mk sub.name sub.status [] none none frs'
    (extract_hlabels_info sub) []

/-- `ResultSummaryForGH.from_result`; `sha` stands for the external
`Info().sha`.  Selects the completed-and-not-ok immediate children, sorts them
stably by severity, builds each job's capped entry list, and truncates the job
list at `MAX_JOBS_PER_SUMMARY` (the remainder is only logged). -/
def from_result (result : Result) (sha : List Char) : ResultSummaryForGH :=
  let failed := stableSortByKey priority
    (result.results.filter (fun r => is_completed r && !is_ok r))
  let subs := failed.map jobSummary
  let subs' :=
    if subs.length > MAX_JOBS_PER_SUMMARY then subs.take MAX_JOBS_PER_SUMMARY
    else subs
  ResultSummaryForGH.mk result.name result.status sha result.start_time
    result.duration subs' (extract_hlabels_info result) []

/-- Modelled from the spec: the rendering of a praktika status value inside an
f-string (the exact provider strings live outside the sources; only
distinctness matters to the rendered table). -/
def statusStr : Status → List Char
  | Status.pending => "pending".toList
  | Status.success => "success".toList
  | Status.failed => "failure".toList
  | Status.error => "error".toList
  | Status.running => "running".toList
  | Status.blank => []

/-- The truncation note line of `to_markdown`
(`f" *15 out of {len} failures shown*\n"`). -/
def noteLine (n : Nat) : List Char :=
  " *15 out of ".toList ++ (Nat.repr n).toList ++ " failures shown*\n".toList

/-- One job row of the table plus one indented row per failing test beneath
it; `getUrl` stands for the external `info.get_specific_report_url` applied to
the ambient workflow data and the job name. -/
def jobRow (getUrl : List Char → List Char) (job : ResultSummaryForGH) :
    List Char :=
  "|[".toList ++ job.name ++ "](".toList ++ getUrl job.name ++
    ")||".toList ++ statusStr job.status ++ "|".toList ++ job.info ++
    "||\n".toList ++
  joinAll (job.failed_results.map (fun t =>
    "| |".toList ++ t.name ++ "|".toList ++ statusStr t.status ++
      "|".toList ++ t.info ++ "||\n".toList))

/-- The fixed-width table of `to_markdown`: header rows then the rows for the
first 15 jobs. -/
def tableFor (getUrl : List Char → List Char)
    (jobs : List ResultSummaryForGH) : List Char :=
  "|job_name|test_name|status|info|comment|\n".toList ++
  "|:--|:--|:-:|:--|:--|\n".toList ++
  joinAll ((jobs.take 15).map (jobRow getUrl))

/-- The status glyph of the summary line (`{SUCCESS: "✅", FAILED: "❌"}`
lookup with default `"⏳"`). -/
def statusSymbol : Status → List Char
  | Status.success => "✅".toList
  | Status.failed => "❌".toList
  | _ => "⏳".toList

/-- `ResultSummaryForGH.to_markdown`: summary line, then — when there are
failing jobs — the truncation note (only when more than 15 entries are
present) and the table. -/
def to_markdown (s : ResultSummaryForGH) (getUrl : List Char → List Char) :
    List Char :=
  "**Summary:** ".toList ++ statusSymbol s.status ++ "\n".toList ++
  (if s.failed_results.isEmpty then []
   else
     (if s.failed_results.length > 15 then noteLine s.failed_results.length
      else []) ++ tableFor getUrl s.failed_results)

/-! ## Occurrence toolkit: `startsWith`, `findSub`, `countSub` -/

theorem startsWith_iff {hay pat : List Char} :
    startsWith hay pat = true ↔ pat <+: hay := by
  simp [startsWith, List.isPrefixOf_iff_prefix]

theorem startsWith_nil {pat : List Char} :
    startsWith [] pat = true ↔ pat = [] := by
  simp [startsWith_iff]

theorem startsWith_cons_ne {c x : Char} {pt t : List Char} (h : c ≠ x) :
    startsWith (x :: t) (c :: pt) = false := by
  simp [startsWith, List.isPrefixOf]
  intro hcx
  exact absurd hcx h

theorem startsWith_head_mem {c : Char} {pt X : List Char}
    (h : startsWith X (c :: pt) = true) : c ∈ X := by
  rcases startsWith_iff.mp h with ⟨w, hw⟩
  rw [← hw]
  exact List.mem_cons_self c _

theorem countSub_cons (pat : List Char) (c : Char) (t : List Char) :
    countSub pat (c :: t) =
      (if startsWith (c :: t) pat then 1 else 0) + countSub pat t := rfl

theorem countSub_cons_le (pat : List Char) (c : Char) (t : List Char) :
    countSub pat t ≤ countSub pat (c :: t) := by
  rw [countSub_cons]; omega

theorem countSub_nil_pos (pat : List Char) (hay : List Char) :
    pat = [] → countSub pat hay = hay.length + 1 := by
  intro h; subst h
  induction hay with
  | nil => simp [countSub, startsWith, List.isPrefixOf]
  | cons c t ih => simp [countSub_cons, ih, startsWith, List.isPrefixOf]; omega

theorem occ_count_pos {pat hay : List Char} {k : Nat}
    (h : startsWith (List.drop k hay) pat = true) : 1 ≤ countSub pat hay := by
  induction hay generalizing k with
  | nil =>
    simp only [List.drop_nil] at h
    simp [countSub, h]
  | cons c t ih =>
    cases k with
    | zero =>
      simp only [List.drop_zero] at h
      simp [countSub_cons, h]
    | succ k =>
      simp only [List.drop_succ_cons] at h
      have := ih h
      have := countSub_cons_le pat c t
      omega

theorem count_eq_zero_iff {pat hay : List Char} :
    countSub pat hay = 0 ↔
      ∀ k, startsWith (List.drop k hay) pat = false := by
  constructor
  · intro h k
    by_contra hk
    have : startsWith (List.drop k hay) pat = true := by
      cases hx : startsWith (List.drop k hay) pat
      · exact absurd hx hk
      · rfl
    have := occ_count_pos this
    omega
  · intro h
    induction hay with
    | nil =>
      have h0 := h 0
      simp only [List.drop_nil] at h0
      simp [countSub, h0]
    | cons c t ih =>
      have h0 := h 0
      simp only [List.drop_zero] at h0
      rw [countSub_cons, h0]
      simp only [Bool.false_eq_true, if_false, Nat.zero_add]
      exact ih (fun k => by have := h (k + 1); simpa using this)

theorem findSub_none_iff {pat hay : List Char} :
    findSub pat hay = none ↔ countSub pat hay = 0 := by
  induction hay with
  | nil =>
    by_cases h : startsWith [] pat = true
    · simp [findSub, countSub, h]
    · simp [findSub, countSub, h]
  | cons c t ih =>
    by_cases h : startsWith (c :: t) pat = true
    · simp [findSub, countSub_cons, h]
    · have hb : startsWith (c :: t) pat = false := by
        cases hx : startsWith (c :: t) pat
        · rfl
        · exact absurd hx h
      simp [findSub, countSub_cons, hb, Option.map_eq_none', ih]

theorem findSub_some_occ {pat hay : List Char} {i : Nat}
    (h : findSub pat hay = some i) :
    startsWith (List.drop i hay) pat = true := by
  induction hay generalizing i with
  | nil =>
    by_cases hb : startsWith [] pat = true
    · simp [findSub, hb] at h
      subst h
      simpa using hb
    · simp [findSub, hb] at h
  | cons c t ih =>
    by_cases hb : startsWith (c :: t) pat = true
    · simp [findSub, hb] at h
      subst h
      simpa using hb
    · have hb' : startsWith (c :: t) pat = false := by
        cases hx : startsWith (c :: t) pat
        · rfl
        · exact absurd hx hb
      simp [findSub, hb'] at h
      rcases h with ⟨j, hj, rfl⟩
      simpa using ih hj

theorem findSub_unique {pat hay : List Char} {k : Nat} (hp : pat ≠ [])
    (h1 : countSub pat hay = 1)
    (hk : startsWith (List.drop k hay) pat = true) :
    findSub pat hay = some k := by
  induction hay generalizing k with
  | nil =>
    simp only [List.drop_nil] at hk
    exact absurd (startsWith_nil.mp hk) hp
  | cons c t ih =>
    by_cases hb : startsWith (c :: t) pat = true
    · have ht : countSub pat t = 0 := by
        rw [countSub_cons, hb] at h1
        simpa using h1
      cases k with
      | zero => simp [findSub, hb]
      | succ k =>
        simp only [List.drop_succ_cons] at hk
        have := occ_count_pos hk
        omega
    · have hb' : startsWith (c :: t) pat = false := by
        cases hx : startsWith (c :: t) pat
        · rfl
        · exact absurd hx hb
      rw [countSub_cons, hb'] at h1
      simp only [Bool.false_eq_true, if_false, Nat.zero_add] at h1
      cases k with
      | zero =>
        simp only [List.drop_zero] at hk
        exact absurd hk hb
      | succ k =>
        simp only [List.drop_succ_cons] at hk
        simp [findSub, hb', ih h1 hk]

theorem count_two {pat hay : List Char} {i j : Nat} (hp : pat ≠ [])
    (hij : i < j)
    (hi : startsWith (List.drop i hay) pat = true)
    (hj : startsWith (List.drop j hay) pat = true) :
    2 ≤ countSub pat hay := by
  induction hay generalizing i j with
  | nil =>
    simp only [List.drop_nil] at hi
    exact absurd (startsWith_nil.mp hi) hp
  | cons c t ih =>
    cases i with
    | zero =>
      simp only [List.drop_zero] at hi
      cases j with
      | zero => omega
      | succ j =>
        simp only [List.drop_succ_cons] at hj
        have h2 := occ_count_pos hj
        have h3 : countSub pat (c :: t) = 1 + countSub pat t := by
          rw [countSub_cons, hi]; simp
        omega
    | succ i =>
      cases j with
      | zero => omega
      | succ j =>
        simp only [List.drop_succ_cons] at hi hj
        have := ih (by omega) hi hj
        have := countSub_cons_le pat c t
        omega

theorem count_drop_le (pat : List Char) (hay : List Char) (n : Nat) :
    countSub pat (List.drop n hay) ≤ countSub pat hay := by
  induction hay generalizing n with
  | nil => simp
  | cons c t ih =>
    cases n with
    | zero => simp
    | succ n =>
      simp only [List.drop_succ_cons]
      exact le_trans (ih n) (countSub_cons_le pat c t)

theorem count_append (pat A B : List Char) :
    countSub pat (A ++ B) = countCross pat A B + countSub pat B := by
  induction A with
  | nil => simp [countCross]
  | cons a A ih =>
    simp only [List.cons_append, countSub_cons, countCross, ih]
    omega

theorem prefix_getElem? {p l : List Char} (h : p <+: l) {n : Nat}
    (hn : n < p.length) : l[n]? = p[n]? := by
  rcases h with ⟨w, rfl⟩
  exact List.getElem?_append_left hn

theorem startsWith_append_elem {c d : Char} {pt X B : List Char}
    (hd : d ∉ pt) (hX : X ≠ []) :
    startsWith (X ++ d :: B) (c :: pt) = startsWith X (c :: pt) := by
  cases h : startsWith X (c :: pt)
  · by_contra hcon
    have htrue : startsWith (X ++ d :: B) (c :: pt) = true := by
      cases hx : startsWith (X ++ d :: B) (c :: pt)
      · exact absurd hx hcon
      · rfl
    have hpre := startsWith_iff.mp htrue
    by_cases hlen : (c :: pt).length ≤ X.length
    · have hpx : (c :: pt) <+: X := by
        have heq := List.prefix_iff_eq_take.mp hpre
        rw [List.take_append_eq_append_take, Nat.sub_eq_zero_of_le hlen,
          List.take_zero, List.append_nil] at heq
        rw [heq]
        exact List.take_prefix _ _
      rw [startsWith_iff.mpr hpx] at h
      exact Bool.noConfusion h
    · push_neg at hlen
      have hget : (X ++ d :: B)[X.length]? = some d := by
        rw [List.getElem?_append_right (le_refl X.length)]
        simp
      have hget2 : (c :: pt)[X.length]? = some d := by
        rw [← prefix_getElem? hpre hlen]
        exact hget
      have hXpos : 0 < X.length := List.length_pos.mpr hX
      have hmem : pt[X.length - 1]? = some d := by
        cases hXl : X.length with
        | zero => omega
        | succ m =>
          rw [hXl] at hget2
          simpa using hget2
      exact hd (List.getElem?_mem hmem)
  · exact startsWith_iff.mpr
      ((startsWith_iff.mp h).trans (List.prefix_append X (d :: B)))

theorem countCross_eq {c d : Char} {pt B : List Char} (hd : d ∉ pt)
    (A : List Char) :
    countCross (c :: pt) A (d :: B) = countSub (c :: pt) A := by
  induction A with
  | nil => simp [countCross, countSub, startsWith, List.isPrefixOf]
  | cons a A ih =>
    simp only [countCross, countSub_cons, ih,
      startsWith_append_elem hd (List.cons_ne_nil a A)]

theorem count_zero_of_head_notin {c : Char} {pt hay : List Char}
    (h : c ∉ hay) : countSub (c :: pt) hay = 0 := by
  rw [count_eq_zero_iff]
  intro k
  cases hx : startsWith (List.drop k hay) (c :: pt)
  · rfl
  · exact absurd ((List.drop_suffix k hay).sublist.mem
      (startsWith_head_mem hx)) h

theorem count_zero_of_rigid {c : Char} {pt ht : List Char} (hm : c ∉ ht)
    (hp : startsWith (c :: ht) (c :: pt) = false) :
    countSub (c :: pt) (c :: ht) = 0 := by
  rw [countSub_cons, hp]
  simp [count_zero_of_head_notin hm]

theorem count_zero_of_longer {pat hay : List Char}
    (h : hay.length < pat.length) : countSub pat hay = 0 := by
  rw [count_eq_zero_iff]
  intro k
  cases hx : startsWith (List.drop k hay) pat
  · rfl
  · exfalso
    have h1 := (startsWith_iff.mp hx).length_le
    have h2 := List.length_drop k hay
    omega

theorem count_self {pat : List Char} (hp : pat ≠ []) :
    countSub pat pat = 1 := by
  cases pat with
  | nil => exact absurd rfl hp
  | cons c pt =>
    have h1 : startsWith (c :: pt) (c :: pt) = true :=
      startsWith_iff.mpr (List.prefix_refl _)
    rw [countSub_cons, h1, count_zero_of_longer (by simp)]
    simp

theorem drop_len_add (A : List Char) (n : Nat) (X : List Char) :
    List.drop (A.length + n) (A ++ X) = List.drop n X := by
  induction A with
  | nil => simp
  | cons a A ih =>
    have harith : (a :: A).length + n = (A.length + n) + 1 := by
      simp only [List.length_cons]; omega
    rw [harith, List.cons_append, List.drop_succ_cons, ih]

theorem occ_shift {pat X : List Char} {k : Nat} (P : List Char)
    (h : startsWith (List.drop k X) pat = true) :
    startsWith (List.drop (P.length + k) (P ++ X)) pat = true := by
  rw [drop_len_add]; exact h

theorem exists_occ_of_count_pos {pat hay : List Char}
    (h : countSub pat hay ≠ 0) :
    ∃ k, startsWith (List.drop k hay) pat = true := by
  by_contra hc
  push_neg at hc
  apply h
  rw [count_eq_zero_iff]
  intro k
  cases hx : startsWith (List.drop k hay) pat
  · rfl
  · exact absurd hx (hc k)

theorem contains_eq_false_of_count_zero {hay pat : List Char}
    (h : countSub pat hay = 0) : containsSub hay pat = false := by
  rw [containsSub, findSub_none_iff.mpr h]
  rfl

theorem contains_eq_true_of_count_one {hay pat : List Char}
    (h : countSub pat hay = 1) : containsSub hay pat = true := by
  rw [containsSub]
  cases hx : findSub pat hay
  · rw [findSub_none_iff] at hx
    omega
  · rfl

/-! ## Span substitution lemmas -/

theorem subSpansF_stop {s e rep hay : List Char} (h : findSub s hay = none) :
    ∀ f, subSpansF s e rep f hay = hay := by
  intro f
  cases f with
  | zero => rfl
  | succ n => simp [subSpansF, h]

theorem subSpans_single (s e rep A M B : List Char) (hs : s ≠ [])
    (h1 : countSub s (A ++ (s ++ (M ++ (e ++ B)))) = 1)
    (h2 : countSub e (A ++ (s ++ (M ++ (e ++ B)))) = 1) :
    subSpans s e rep (A ++ (s ++ (M ++ (e ++ B)))) = A ++ (rep ++ B) := by
  have he : e ≠ [] := by
    intro hnil
    rw [countSub_nil_pos e _ hnil] at h2
    have hlen : 0 < s.length := List.length_pos.mpr hs
    simp only [List.length_append] at h2
    omega
  -- the visible occurrence of s is the only one, and findSub returns it
  have hoccs : startsWith
      (List.drop A.length (A ++ (s ++ (M ++ (e ++ B))))) s = true := by
    rw [List.drop_left]
    exact startsWith_iff.mpr (List.prefix_append s _)
  have hfind_s : findSub s (A ++ (s ++ (M ++ (e ++ B)))) = some A.length :=
    findSub_unique hs h1 hoccs
  -- the suffix after the s occurrence, and the first e in it
  have hdrop1 : List.drop (A.length + s.length) (A ++ (s ++ (M ++ (e ++ B)))) =
      M ++ (e ++ B) := by
    rw [drop_len_add, List.drop_left]
  have hocce : startsWith (List.drop M.length (M ++ (e ++ B))) e = true := by
    rw [List.drop_left]
    exact startsWith_iff.mpr (List.prefix_append e _)
  have hcount_e : countSub e (M ++ (e ++ B)) = 1 := by
    have hle : countSub e (M ++ (e ++ B)) ≤ 1 := by
      rw [← hdrop1]
      rw [← h2]
      exact count_drop_le e _ _
    have hge := occ_count_pos hocce
    omega
  have hfind_e : findSub e (M ++ (e ++ B)) = some M.length :=
    findSub_unique he hcount_e hocce
  -- B carries no further occurrence of s
  have hcount_sB : countSub s B = 0 := by
    by_contra hne
    rcases exists_occ_of_count_pos hne with ⟨k, hk⟩
    have hassoc : A ++ (s ++ (M ++ (e ++ B))) =
        (A ++ (s ++ (M ++ e))) ++ B := by simp [List.append_assoc]
    have hshift := occ_shift (A ++ (s ++ (M ++ e))) hk
    rw [← hassoc] at hshift
    have hlen : (A ++ (s ++ (M ++ e))).length =
        A.length + s.length + M.length + e.length := by
      simp [List.length_append]
      omega
    have hlt : A.length < (A ++ (s ++ (M ++ e))).length + k := by
      have : 0 < s.length := List.length_pos.mpr hs
      omega
    have := count_two hs hlt hoccs hshift
    omega
  have hfind_sB : findSub s B = none :=
    findSub_none_iff.mpr hcount_sB
  -- unfold one substitution step
  have hdropfinal :
      List.drop (A.length + s.length + M.length + e.length)
        (A ++ (s ++ (M ++ (e ++ B)))) = B := by
    have hassoc : A ++ (s ++ (M ++ (e ++ B))) =
        (A ++ (s ++ (M ++ e))) ++ B := by simp [List.append_assoc]
    have hlen : (A ++ (s ++ (M ++ e))).length =
        A.length + s.length + M.length + e.length := by
      simp [List.length_append]
      omega
    rw [hassoc, ← hlen, List.drop_left]
  rw [subSpans]
  rw [show (A ++ (s ++ (M ++ (e ++ B)))).length + 1 =
    Nat.succ (A ++ (s ++ (M ++ (e ++ B)))).length from rfl]
  rw [subSpansF]
  rw [hfind_s]
  simp only []
  rw [hdrop1, hfind_e]
  simp only []
  rw [hdropfinal, subSpansF_stop hfind_sB, List.take_left]
  simp [List.append_assoc]

/-! ## Marker-format facts -/

theorem START_cons (tag : List Char) :
    START tag =
      '<' :: ("!-- CI automatic comment start :".toList ++ (tag ++ sufMark)) :=
  rfl

theorem END_cons (tag : List Char) :
    END tag =
      '<' :: ("!-- CI automatic comment end :".toList ++ (tag ++ sufMark)) :=
  rfl

theorem lt_notin_startTail {tag : List Char} (h : ('<' : Char) ∉ tag) :
    ('<' : Char) ∉
      ("!-- CI automatic comment start :".toList ++ (tag ++ sufMark)) := by
  intro hmem
  rcases List.mem_append.mp hmem with h1 | h2
  · exact absurd h1 (by decide)
  · rcases List.mem_append.mp h2 with h3 | h4
    · exact h h3
    · exact absurd h4 (by decide)

theorem lt_notin_endTail {tag : List Char} (h : ('<' : Char) ∉ tag) :
    ('<' : Char) ∉
      ("!-- CI automatic comment end :".toList ++ (tag ++ sufMark)) := by
  intro hmem
  rcases List.mem_append.mp hmem with h1 | h2
  · exact absurd h1 (by decide)
  · rcases List.mem_append.mp h2 with h3 | h4
    · exact h h3
    · exact absurd h4 (by decide)

theorem nl_notin_startTail {tag : List Char} (h : ('\n' : Char) ∉ tag) :
    ('\n' : Char) ∉
      ("!-- CI automatic comment start :".toList ++ (tag ++ sufMark)) := by
  intro hmem
  rcases List.mem_append.mp hmem with h1 | h2
  · exact absurd h1 (by decide)
  · rcases List.mem_append.mp h2 with h3 | h4
    · exact h h3
    · exact absurd h4 (by decide)

theorem nl_notin_endTail {tag : List Char} (h : ('\n' : Char) ∉ tag) :
    ('\n' : Char) ∉
      ("!-- CI automatic comment end :".toList ++ (tag ++ sufMark)) := by
  intro hmem
  rcases List.mem_append.mp hmem with h1 | h2
  · exact absurd h1 (by decide)
  · rcases List.mem_append.mp h2 with h3 | h4
    · exact h h3
    · exact absurd h4 (by decide)

theorem startsWith_eq_false_of_not_prefix {p l : List Char}
    (h : ¬ p <+: l) : startsWith l p = false := by
  cases hx : startsWith l p
  · rfl
  · exact absurd (startsWith_iff.mp hx) h

theorem START_not_prefix_END (tag₁ tag₂ : List Char) :
    ¬ (START tag₁ <+: END tag₂) := by
  intro h
  have hlenS : 26 < (START tag₁).length := by
    have h1 : (START tag₁).length =
        startPre.length + (tag₁.length + sufMark.length) := by
      simp [START]
    have h2 : startPre.length = 33 := by decide
    omega
  have s26 : (START tag₁)[26]? = some 's' := by
    have hx : (START tag₁)[26]? = startPre[26]? := by
      rw [show START tag₁ = startPre ++ (tag₁ ++ sufMark) from rfl]
      exact List.getElem?_append_left (by decide)
    rw [hx]
    decide
  have e26 : (END tag₂)[26]? = some 'e' := by
    have hx : (END tag₂)[26]? = endPre[26]? := by
      rw [show END tag₂ = endPre ++ (tag₂ ++ sufMark) from rfl]
      exact List.getElem?_append_left (by decide)
    rw [hx]
    decide
  have heq := prefix_getElem? h hlenS
  rw [e26, s26] at heq
  exact absurd heq (by decide)

theorem END_not_prefix_START (tag₁ tag₂ : List Char) :
    ¬ (END tag₁ <+: START tag₂) := by
  intro h
  have hlenE : 26 < (END tag₁).length := by
    have h1 : (END tag₁).length =
        endPre.length + (tag₁.length + sufMark.length) := by
      simp [END]
    have h2 : endPre.length = 31 := by decide
    omega
  have e26 : (END tag₁)[26]? = some 'e' := by
    have hx : (END tag₁)[26]? = endPre[26]? := by
      rw [show END tag₁ = endPre ++ (tag₁ ++ sufMark) from rfl]
      exact List.getElem?_append_left (by decide)
    rw [hx]
    decide
  have s26 : (START tag₂)[26]? = some 's' := by
    have hx : (START tag₂)[26]? = startPre[26]? := by
      rw [show START tag₂ = startPre ++ (tag₂ ++ sufMark) from rfl]
      exact List.getElem?_append_left (by decide)
    rw [hx]
    decide
  have heq := prefix_getElem? h hlenE
  rw [s26, e26] at heq
  exact absurd heq (by decide)

/-! ## Counting occurrences in the appended block -/

theorem count_appended_start {c : Char} {st et body content : List Char}
    (hcnl : c ≠ '\n')
    (hst : c ∉ st) (het : c ∉ et)
    (hsnl : ('\n' : Char) ∉ st)
    (hse : startsWith (c :: et) (c :: st) = false)
    (hb : countSub (c :: st) body = 0)
    (hc : countSub (c :: st) content = 0) :
    countSub (c :: st)
      (body ++ ((c :: st) ++
        ('\n' :: (content ++ ('\n' :: ((c :: et) ++ ['\n'])))))) = 1 := by
  have h1 : countSub (c :: st)
      (body ++ ((c :: st) ++
        ('\n' :: (content ++ ('\n' :: ((c :: et) ++ ['\n'])))))) =
      countCross (c :: st) body
        ((c :: st) ++ ('\n' :: (content ++ ('\n' :: ((c :: et) ++ ['\n']))))) +
      countSub (c :: st)
        ((c :: st) ++ ('\n' :: (content ++ ('\n' :: ((c :: et) ++ ['\n']))))) :=
    count_append _ _ _
  have h2 : countCross (c :: st) body
      ((c :: st) ++ ('\n' :: (content ++ ('\n' :: ((c :: et) ++ ['\n']))))) =
      countSub (c :: st) body := by
    rw [List.cons_append]
    exact countCross_eq hst body
  have h3 : countSub (c :: st)
      ((c :: st) ++ ('\n' :: (content ++ ('\n' :: ((c :: et) ++ ['\n']))))) =
      countCross (c :: st) (c :: st)
        ('\n' :: (content ++ ('\n' :: ((c :: et) ++ ['\n'])))) +
      countSub (c :: st)
        ('\n' :: (content ++ ('\n' :: ((c :: et) ++ ['\n'])))) :=
    count_append _ _ _
  have h4 : countCross (c :: st) (c :: st)
      ('\n' :: (content ++ ('\n' :: ((c :: et) ++ ['\n'])))) =
      countSub (c :: st) (c :: st) :=
    countCross_eq hsnl _
  have h5 : countSub (c :: st) (c :: st) = 1 :=
    count_self (List.cons_ne_nil _ _)
  have h6 : countSub (c :: st)
      ('\n' :: (content ++ ('\n' :: ((c :: et) ++ ['\n'])))) =
      countSub (c :: st) (content ++ ('\n' :: ((c :: et) ++ ['\n']))) := by
    rw [countSub_cons, startsWith_cons_ne hcnl]
    simp
  have h7 : countSub (c :: st) (content ++ ('\n' :: ((c :: et) ++ ['\n']))) =
      countCross (c :: st) content ('\n' :: ((c :: et) ++ ['\n'])) +
      countSub (c :: st) ('\n' :: ((c :: et) ++ ['\n'])) :=
    count_append _ _ _
  have h8 : countCross (c :: st) content ('\n' :: ((c :: et) ++ ['\n'])) =
      countSub (c :: st) content :=
    countCross_eq hsnl _
  have h9 : countSub (c :: st) ('\n' :: ((c :: et) ++ ['\n'])) =
      countSub (c :: st) ((c :: et) ++ ['\n']) := by
    rw [countSub_cons, startsWith_cons_ne hcnl]
    simp
  have h10 : countSub (c :: st) ((c :: et) ++ ['\n']) =
      countCross (c :: st) (c :: et) ['\n'] +
      countSub (c :: st) ['\n'] :=
    count_append _ _ _
  have h11 : countCross (c :: st) (c :: et) ['\n'] =
      countSub (c :: st) (c :: et) := by
    rw [show (['\n'] : List Char) = '\n' :: [] from rfl]
    exact countCross_eq hsnl _
  have h12 : countSub (c :: st) (c :: et) = 0 :=
    count_zero_of_rigid het hse
  have h13 : countSub (c :: st) ['\n'] = 0 :=
    count_zero_of_head_notin (by simpa using hcnl)
  omega

theorem count_appended_end {c : Char} {st et body content : List Char}
    (hcnl : c ≠ '\n')
    (hst : c ∉ st) (het : c ∉ et)
    (henl : ('\n' : Char) ∉ et)
    (hes : startsWith (c :: st) (c :: et) = false)
    (hb : countSub (c :: et) body = 0)
    (hc : countSub (c :: et) content = 0) :
    countSub (c :: et)
      (body ++ ((c :: st) ++
        ('\n' :: (content ++ ('\n' :: ((c :: et) ++ ['\n'])))))) = 1 := by
  have h1 : countSub (c :: et)
      (body ++ ((c :: st) ++
        ('\n' :: (content ++ ('\n' :: ((c :: et) ++ ['\n'])))))) =
      countCross (c :: et) body
        ((c :: st) ++ ('\n' :: (content ++ ('\n' :: ((c :: et) ++ ['\n']))))) +
      countSub (c :: et)
        ((c :: st) ++ ('\n' :: (content ++ ('\n' :: ((c :: et) ++ ['\n']))))) :=
    count_append _ _ _
  have h2 : countCross (c :: et) body
      ((c :: st) ++ ('\n' :: (content ++ ('\n' :: ((c :: et) ++ ['\n']))))) =
      countSub (c :: et) body := by
    rw [List.cons_append]
    exact countCross_eq het body
  have h3 : countSub (c :: et)
      ((c :: st) ++ ('\n' :: (content ++ ('\n' :: ((c :: et) ++ ['\n']))))) =
      countCross (c :: et) (c :: st)
        ('\n' :: (content ++ ('\n' :: ((c :: et) ++ ['\n'])))) +
      countSub (c :: et)
        ('\n' :: (content ++ ('\n' :: ((c :: et) ++ ['\n'])))) :=
    count_append _ _ _
  have h4 : countCross (c :: et) (c :: st)
      ('\n' :: (content ++ ('\n' :: ((c :: et) ++ ['\n'])))) =
      countSub (c :: et) (c :: st) :=
    countCross_eq henl _
  have h5 : countSub (c :: et) (c :: st) = 0 :=
    count_zero_of_rigid hst hes
  have h6 : countSub (c :: et)
      ('\n' :: (content ++ ('\n' :: ((c :: et) ++ ['\n'])))) =
      countSub (c :: et) (content ++ ('\n' :: ((c :: et) ++ ['\n']))) := by
    rw [countSub_cons, startsWith_cons_ne hcnl]
    simp
  have h7 : countSub (c :: et) (content ++ ('\n' :: ((c :: et) ++ ['\n']))) =
      countCross (c :: et) content ('\n' :: ((c :: et) ++ ['\n'])) +
      countSub (c :: et) ('\n' :: ((c :: et) ++ ['\n'])) :=
    count_append _ _ _
  have h8 : countCross (c :: et) content ('\n' :: ((c :: et) ++ ['\n'])) =
      countSub (c :: et) content :=
    countCross_eq henl _
  have h9 : countSub (c :: et) ('\n' :: ((c :: et) ++ ['\n'])) =
      countSub (c :: et) ((c :: et) ++ ['\n']) := by
    rw [countSub_cons, startsWith_cons_ne hcnl]
    simp
  have h10 : countSub (c :: et) ((c :: et) ++ ['\n']) =
      countCross (c :: et) (c :: et) ['\n'] +
      countSub (c :: et) ['\n'] :=
    count_append _ _ _
  have h11 : countCross (c :: et) (c :: et) ['\n'] =
      countSub (c :: et) (c :: et) := by
    rw [show (['\n'] : List Char) = '\n' :: [] from rfl]
    exact countCross_eq henl _
  have h12 : countSub (c :: et) (c :: et) = 1 :=
    count_self (List.cons_ne_nil _ _)
  have h13 : countSub (c :: et) ['\n'] = 0 :=
    count_zero_of_head_notin (by simpa using hcnl)
  omega

theorem count_START_merged {body tag content : List Char}
    (hlt : ('<' : Char) ∉ tag) (hnl : ('\n' : Char) ∉ tag)
    (hb : countSub (START tag) body = 0)
    (hc : countSub (START tag) content = 0) :
    countSub (START tag)
      (body ++ (START tag ++ (nl ++ (content ++ (nl ++ (END tag ++ nl)))))) =
      1 := by
  have hse : startsWith (END tag) (START tag) = false :=
    startsWith_eq_false_of_not_prefix (START_not_prefix_END tag tag)
  rw [START_cons] at hb hc
  rw [START_cons, END_cons] at hse
  rw [START_cons, END_cons]
  exact count_appended_start (by decide) (lt_notin_startTail hlt)
    (lt_notin_endTail hlt) (nl_notin_startTail hnl) hse hb hc

theorem count_END_merged {body tag content : List Char}
    (hlt : ('<' : Char) ∉ tag) (hnl : ('\n' : Char) ∉ tag)
    (hb : countSub (END tag) body = 0)
    (hc : countSub (END tag) content = 0) :
    countSub (END tag)
      (body ++ (START tag ++ (nl ++ (content ++ (nl ++ (END tag ++ nl)))))) =
      1 := by
  have hes : startsWith (START tag) (END tag) = false :=
    startsWith_eq_false_of_not_prefix (END_not_prefix_START tag tag)
  rw [END_cons] at hb hc
  rw [START_cons, END_cons] at hes
  rw [START_cons, END_cons]
  exact count_appended_end (by decide) (lt_notin_startTail hlt)
    (lt_notin_endTail hlt) (nl_notin_endTail hnl) hes hb hc

/-- C1 (amended): merging a tag whose markers are absent from the working
body appends the delimited block; when the content also avoids both markers
and the tag text contains neither the marker head character nor a newline,
the appended body holds exactly one occurrence of each delimiter and a second
application with the same tag and content is the identity, so exactly one
delimiter pair remains. -/
theorem C1_merge_idempotent_append (body tag content : List Char)
    (hlt : ('<' : Char) ∉ tag) (hnl : ('\n' : Char) ∉ tag)
    (hbs : countSub (START tag) body = 0)
    (hbe : countSub (END tag) body = 0)
    (hcs : countSub (START tag) content = 0)
    (hce : countSub (END tag) content = 0) :
    mergeTag body tag content =
      body ++ (START tag ++ (nl ++ (content ++ (nl ++ (END tag ++ nl))))) ∧
    countSub (START tag) (mergeTag body tag content) = 1 ∧
    countSub (END tag) (mergeTag body tag content) = 1 ∧
    mergeTag (mergeTag body tag content) tag content =
      mergeTag body tag content := by
  have hcontF : containsSub body (START tag) = false :=
    contains_eq_false_of_count_zero hbs
  have happ : mergeTag body tag content =
      body ++ (START tag ++ (nl ++ (content ++ (nl ++ (END tag ++ nl))))) := by
    simp only [mergeTag, hcontF, Bool.false_and, Bool.false_eq_true, if_false]
    simp [List.append_assoc]
  have hc1 := count_START_merged hlt hnl hbs hcs
  have hc2 := count_END_merged hlt hnl hbe hce
  have hsne : START tag ≠ [] := by
    rw [START_cons]
    exact List.cons_ne_nil _ _
  have hconT1 : containsSub
      (body ++ (START tag ++ (nl ++ (content ++ (nl ++ (END tag ++ nl))))))
      (START tag) = true := contains_eq_true_of_count_one hc1
  have hconT2 : containsSub
      (body ++ (START tag ++ (nl ++ (content ++ (nl ++ (END tag ++ nl))))))
      (END tag) = true := contains_eq_true_of_count_one hc2
  have hshape :
      body ++ (START tag ++ (nl ++ (content ++ (nl ++ (END tag ++ nl))))) =
      body ++ (START tag ++
        ((nl ++ (content ++ nl)) ++ (END tag ++ nl))) := by
    simp [List.append_assoc]
  have hc1' := hc1
  have hc2' := hc2
  rw [hshape] at hc1' hc2'
  have hsub : subSpans (START tag) (END tag)
      (START tag ++ nl ++ content ++ nl ++ END tag)
      (body ++ (START tag ++ (nl ++ (content ++ (nl ++ (END tag ++ nl)))))) =
      body ++ ((START tag ++ nl ++ content ++ nl ++ END tag) ++ nl) := by
    rw [hshape]
    exact subSpans_single _ _ _ body (nl ++ (content ++ nl)) nl hsne hc1' hc2'
  have hmerge2 : mergeTag
      (body ++ (START tag ++ (nl ++ (content ++ (nl ++ (END tag ++ nl))))))
      tag content =
      body ++ (START tag ++ (nl ++ (content ++ (nl ++ (END tag ++ nl))))) := by
    simp only [mergeTag, hconT1, hconT2, Bool.and_self, if_true]
    rw [hsub]
    simp [List.append_assoc]
  refine ⟨happ, ?_, ?_, ?_⟩
  · rw [happ]
    exact hc1
  · rw [happ]
    exact hc2
  · rw [happ, hmerge2]

/-- Witness for C1: a concrete instantiation (empty working body, tag `t`,
content `hello`) discharging every hypothesis. -/
theorem C1_merge_idempotent_append_witness :
    ((('<' : Char) ∉ "t".toList) ∧
     countSub (START ("t".toList)) [] = 0 ∧
     countSub (START ("t".toList)) ("hello".toList) = 0) ∧
    (mergeTag [] ("t".toList) ("hello".toList) =
      [] ++ (START ("t".toList) ++
        (nl ++ ("hello".toList ++ (nl ++ (END ("t".toList) ++ nl))))) ∧
     countSub (START ("t".toList))
       (mergeTag [] ("t".toList) ("hello".toList)) = 1 ∧
     countSub (END ("t".toList))
       (mergeTag [] ("t".toList) ("hello".toList)) = 1 ∧
     mergeTag (mergeTag [] ("t".toList) ("hello".toList))
       ("t".toList) ("hello".toList) =
       mergeTag [] ("t".toList) ("hello".toList)) :=
  ⟨⟨by decide, by decide, by decide⟩,
   C1_merge_idempotent_append [] ("t".toList) ("hello".toList)
     (by decide) (by decide) (by decide) (by decide) (by decide) (by decide)⟩

set_option maxRecDepth 100000 in
/-- Counterexample to C1 as stated (for every body, tag and content): with the
empty body, tag `t` and content equal to the end marker itself, two
applications leave three occurrences of the end delimiter, not one. -/
theorem C1_counterexample :
    countSub (END ("t".toList))
      (mergeTag (mergeTag [] ("t".toList) (END ("t".toList)))
        ("t".toList) (END ("t".toList))) ≠ 1 := by
  decide

/-- C2 (amended): for a working body holding exactly one occurrence of each
marker of tag T, in order (body = A ++ START ++ M ++ END ++ B), merging new
content for T rewrites only the span from START through END; every byte of A
and B is preserved.  (When further marker occurrences exist, the code's
`re.sub` replaces every non-overlapping span, so text outside the first span
changes — see the counterexample.) -/
theorem C2_frame_preservation (tag content A M B : List Char)
    (h1 : countSub (START tag)
      (A ++ (START tag ++ (M ++ (END tag ++ B)))) = 1)
    (h2 : countSub (END tag)
      (A ++ (START tag ++ (M ++ (END tag ++ B)))) = 1) :
    mergeTag (A ++ (START tag ++ (M ++ (END tag ++ B)))) tag content =
      A ++ ((START tag ++ nl ++ content ++ nl ++ END tag) ++ B) := by
  have hsne : START tag ≠ [] := by
    rw [START_cons]
    exact List.cons_ne_nil _ _
  have hcon1 : containsSub (A ++ (START tag ++ (M ++ (END tag ++ B))))
      (START tag) = true := contains_eq_true_of_count_one h1
  have hcon2 : containsSub (A ++ (START tag ++ (M ++ (END tag ++ B))))
      (END tag) = true := contains_eq_true_of_count_one h2
  simp only [mergeTag, hcon1, hcon2, Bool.and_self, if_true]
  exact subSpans_single _ _ _ A M B hsne h1 h2

set_option maxRecDepth 100000 in
/-- Witness for C2: a concrete body `pre …START(t)…\nold\n…END(t)…post` whose
merge rewrites exactly the delimited span. -/
theorem C2_frame_preservation_witness :
    (countSub (START ("t".toList))
      ("pre".toList ++ (START ("t".toList) ++
        ("\nold\n".toList ++ (END ("t".toList) ++ "post".toList)))) = 1) ∧
    mergeTag
      ("pre".toList ++ (START ("t".toList) ++
        ("\nold\n".toList ++ (END ("t".toList) ++ "post".toList))))
      ("t".toList) ("new".toList) =
      "pre".toList ++ ((START ("t".toList) ++ nl ++ "new".toList ++ nl ++
        END ("t".toList)) ++ "post".toList) :=
  ⟨by decide,
   C2_frame_preservation ("t".toList) ("new".toList) ("pre".toList)
     ("\nold\n".toList) ("post".toList) (by decide) (by decide)⟩

set_option maxRecDepth 400000 in
/-- Counterexample to C2 as stated (for every body containing both markers):
with two delimited blocks `START END x START END`, byte-for-byte preservation
outside the first span (positions 0 through 75) would force the final 77 bytes
of the result to equal the 77 bytes after that span, but the code replaces
every span, so they differ. -/
theorem C2_counterexample :
    ¬ (List.drop
        ((mergeTag
          (START ("t".toList) ++ (END ("t".toList) ++ ("x".toList ++
            (START ("t".toList) ++ END ("t".toList)))))
          ("t".toList) ("c".toList)).length - 77)
        (mergeTag
          (START ("t".toList) ++ (END ("t".toList) ++ ("x".toList ++
            (START ("t".toList) ++ END ("t".toList)))))
          ("t".toList) ("c".toList)) =
       List.drop 76
        (START ("t".toList) ++ (END ("t".toList) ++ ("x".toList ++
          (START ("t".toList) ++ END ("t".toList)))))) := by
  decide

/-! ## Target-comment selection -/

theorem selectGo_char (comments : List RComment)
    (hid : ∀ c ∈ comments, c.id ≠ 0) :
    ∀ tags, selectGo comments tags (none, []) =
      (match tags.find? (fun t => comments.any (matchesTag t)) with
        | some t =>
          (match comments.find? (matchesTag t) with
            | some c => (some c.id, c.body)
            | none => ((none : Option Nat), ([] : List Char)))
        | none => ((none : Option Nat), ([] : List Char))) := by
  intro tags
  induction tags with
  | nil => rfl
  | cons t rest ih =>
    cases hf : comments.find? (matchesTag t) with
    | some c =>
      have hmem := List.mem_of_find?_eq_some hf
      have hidc : c.id ≠ 0 := hid c hmem
      have hany : comments.any (matchesTag t) = true := by
        rw [List.any_eq_true]
        exact ⟨c, hmem, List.find?_some hf⟩
      have ht : truthyId (some c.id) = true := by
        simp [truthyId, hidc]
      have hstep : List.find? (fun t => comments.any (matchesTag t))
          (t :: rest) = some t := by
        simp [List.find?_cons, hany]
      rw [hstep]
      simp only [selectGo, hf, ht, if_true]
    | none =>
      have hnoany : comments.any (matchesTag t) = false := by
        rw [List.any_eq_false]
        intro x hx
        have hx2 := List.find?_eq_none.mp hf x hx
        simp [hx2]
      have hstep : List.find? (fun t => comments.any (matchesTag t))
          (t :: rest) =
          List.find? (fun t => comments.any (matchesTag t)) rest := by
        simp [List.find?_cons, hnoany]
      rw [hstep]
      simp only [selectGo, hf, truthyId, if_false]
      exact ih

/-- C3 (amended): the target selection is tag-major — the first requested tag
(in mapping order) with any matching comment wins, and its first matching
comment (in fetched order) becomes the target — not the first comment
matching any tag; when no comment matches any requested tag the starting body
is empty and the operation creates a new comment, or fails under
`only_update`.  Comment ids are assumed nonzero (provider-assigned ids; the
code tests the id with Python truthiness). -/
theorem C3_target_selection (tcs : List (List Char × List Char))
    (comments : List RComment) (only_update : Bool)
    (hid : ∀ c ∈ comments, c.id ≠ 0) :
    selectTarget (tcs.map Prod.fst) comments =
      (match (tcs.map Prod.fst).find?
          (fun t => comments.any (matchesTag t)) with
        | some t =>
          (match comments.find? (matchesTag t) with
            | some c => (some c.id, c.body)
            | none => ((none : Option Nat), ([] : List Char)))
        | none => ((none : Option Nat), ([] : List Char))) ∧
    ((∀ t ∈ tcs.map Prod.fst, ∀ c ∈ comments, matchesTag t c = false) →
      post_updateable_comment tcs comments only_update =
        (if only_update then PostAction.failNotFound
         else PostAction.create
           (tcs.foldl (fun b tc => mergeTag b tc.1 tc.2) []))) := by
  refine ⟨selectGo_char comments hid (tcs.map Prod.fst), ?_⟩
  intro hnone
  have hfind : (tcs.map Prod.fst).find?
      (fun t => comments.any (matchesTag t)) = none := by
    rw [List.find?_eq_none]
    intro t ht
    simp only [Bool.not_eq_true, List.any_eq_false]
    intro c hc
    simp [hnone t ht c hc]
  have hsel : selectTarget (tcs.map Prod.fst) comments =
      ((none : Option Nat), ([] : List Char)) := by
    rw [selectTarget, selectGo_char comments hid (tcs.map Prod.fst), hfind]
  simp only [post_updateable_comment, hsel]
  cases only_update <;> simp

set_option maxRecDepth 400000 in
/-- Counterexample to C3 as stated: with requested tags `a, b` and fetched
comments `[id 1 matching b, id 2 matching a]`, the claim's comment-major rule
picks comment 1, but the code's tag-major loop picks comment 2. -/
theorem C3_counterexample :
    (selectTarget ["a".toList, "b".toList]
      [⟨1, START ("b".toList) ++ END ("b".toList)⟩,
       ⟨2, START ("a".toList) ++ END ("a".toList)⟩]).1 ≠
    (firstCommentAnyTag ["a".toList, "b".toList]
      [⟨1, START ("b".toList) ++ END ("b".toList)⟩,
       ⟨2, START ("a".toList) ++ END ("a".toList)⟩]).map RComment.id := by
  decide

/-- Witness for C3: no comments fetched, `only_update` set — the operation
fails rather than creating a comment. -/
theorem C3_target_selection_witness :
    (∀ c ∈ ([] : List RComment), c.id ≠ 0) ∧
    (selectTarget ([("a".toList, "x".toList)].map Prod.fst) [] =
      (match ([("a".toList, "x".toList)].map Prod.fst).find?
          (fun t => ([] : List RComment).any (matchesTag t)) with
        | some t =>
          (match ([] : List RComment).find? (matchesTag t) with
            | some c => (some c.id, c.body)
            | none => ((none : Option Nat), ([] : List Char)))
        | none => ((none : Option Nat), ([] : List Char))) ∧
     ((∀ t ∈ [("a".toList, "x".toList)].map Prod.fst,
         ∀ c ∈ ([] : List RComment), matchesTag t c = false) →
       post_updateable_comment [("a".toList, "x".toList)] [] true =
         (if true then PostAction.failNotFound
          else PostAction.create
            ([("a".toList, "x".toList)].foldl
              (fun b tc => mergeTag b tc.1 tc.2) [])))) :=
  ⟨by decide,
   C3_target_selection [("a".toList, "x".toList)] [] true (by decide)⟩

/-! ## Retry loop -/

theorem retryLoop_perm (exec : Nat → ExecResult) :
    ∀ (i rem used sleeps : Nat), i < rem →
    (∀ j, j < i → (exec (used + j)).code ≠ 0 ∧
      isPermanentErr (exec (used + j)).err = false) →
    (exec (used + i)).code ≠ 0 → isPermanentErr (exec (used + i)).err = true →
    retryLoop exec rem used sleeps = (false, used + i + 1, sleeps + i) := by
  intro i
  induction i with
  | zero =>
    intro rem used sleeps hrem hprev hcode hperm
    cases rem with
    | zero => omega
    | succ k =>
      simp only [Nat.add_zero] at hcode hperm
      have hc : ((exec used).code == 0) = false := by
        simp only [beq_eq_false_iff_ne]
        exact hcode
      simp only [retryLoop, hc, Bool.false_eq_true, if_false, hperm, if_true]
      simp
  | succ i ih =>
    intro rem used sleeps hrem hprev hcode hperm
    cases rem with
    | zero => omega
    | succ k =>
      have h0 := hprev 0 (by omega)
      simp only [Nat.add_zero] at h0
      have hc : ((exec used).code == 0) = false := by
        simp only [beq_eq_false_iff_ne]
        exact h0.1
      simp only [retryLoop, hc, Bool.false_eq_true, if_false, h0.2]
      have hprev' : ∀ j, j < i → (exec (used + 1 + j)).code ≠ 0 ∧
          isPermanentErr (exec (used + 1 + j)).err = false := by
        intro j hj
        have := hprev (j + 1) (by omega)
        rwa [show used + (j + 1) = used + 1 + j by omega] at this
      have hcode' : (exec (used + 1 + i)).code ≠ 0 := by
        rwa [show used + 1 + i = used + (i + 1) by omega]
      have hperm' : isPermanentErr (exec (used + 1 + i)).err = true := by
        rwa [show used + 1 + i = used + (i + 1) by omega]
      have hrec := ih k (used + 1) (sleeps + 1) (by omega) hprev' hcode' hperm'
      rw [hrec]
      have e1 : used + 1 + i + 1 = used + (i + 1) + 1 := by omega
      have e2 : sleeps + 1 + i = sleeps + (i + 1) := by omega
      rw [e1, e2]

/-- C7: whenever an attempt ends with a non-zero exit code and a standard
error containing a permanent-failure marker (earlier attempts having failed
transiently), the loop returns false right away: the attempt count stops at
that attempt and no sleep follows it (one sleep per earlier transient
failure only). -/
theorem C7_permanent_error_aborts (maxRetries : Nat) (exec : Nat → ExecResult)
    (i : Nat) (hi : i < maxRetries)
    (hprev : ∀ j, j < i → (exec j).code ≠ 0 ∧
      isPermanentErr (exec j).err = false)
    (hcode : (exec i).code ≠ 0)
    (hperm : isPermanentErr (exec i).err = true) :
    do_command_with_retries maxRetries exec = (false, i + 1, i) := by
  have h := retryLoop_perm exec i maxRetries 0 0 hi
    (by intro j hj; simpa using hprev j hj) (by simpa using hcode)
    (by simpa using hperm)
  simpa [do_command_with_retries] using h

/-- Witness for C7: three allowed attempts, the first fails with
`Bad credentials` in standard error — the loop stops after one attempt with
no sleep. -/
theorem C7_permanent_error_aborts_witness :
    ((0 : Nat) < 3 ∧
     ((fun _ => ExecResult.mk 1 []
        ("error: Bad credentials (HTTP 401)".toList)) 0).code ≠ 0 ∧
     isPermanentErr ((fun _ => ExecResult.mk 1 []
        ("error: Bad credentials (HTTP 401)".toList)) 0).err = true) ∧
    do_command_with_retries 3
      (fun _ => ExecResult.mk 1 []
        ("error: Bad credentials (HTTP 401)".toList)) = (false, 1, 0) :=
  ⟨⟨by decide, by decide, by decide⟩,
   C7_permanent_error_aborts 3
     (fun _ => ExecResult.mk 1 [] ("error: Bad credentials (HTTP 401)".toList))
     0 (by decide) (fun j hj => absurd hj (by omega)) (by decide) (by decide)⟩

/-! ## Metadata accessor fallbacks -/

/-- C8: when the fetched payload is empty (after stripping) or does not parse,
neither accessor raises: contributors degrade to the empty list and
title/body/labels degrade to two empty strings and an empty list. -/
theorem C8_malformed_json_defaults (jsonLoads : List Char → Option JVal)
    (out : List Char) (h : pyStrip out = [] ∨ jsonLoads out = none) :
    get_pr_contributors jsonLoads out = JVal.arr [] ∧
    get_pr_title_body_labels jsonLoads out =
      some (JVal.str [], JVal.str [], []) := by
  rcases h with h | h
  · simp [get_pr_contributors, get_pr_title_body_labels, h]
  · by_cases h2 : pyStrip out = []
    · simp [get_pr_contributors, get_pr_title_body_labels, h2]
    · simp [get_pr_contributors, get_pr_title_body_labels, h2, h]

/-- Witness for C8: a parser that rejects the non-blank payload `@@`. -/
theorem C8_malformed_json_defaults_witness :
    ((fun (_ : List Char) => (none : Option JVal)) ("@@".toList) = none) ∧
    (get_pr_contributors (fun _ => none) ("@@".toList) = JVal.arr [] ∧
     get_pr_title_body_labels (fun _ => none) ("@@".toList) =
       some (JVal.str [], JVal.str [], [])) :=
  ⟨rfl, C8_malformed_json_defaults (fun _ => none) ("@@".toList) (Or.inr rfl)⟩

/-! ## Commit status description truncation -/

/-- C9 (amended): both commit-status functions truncate the description to 80
characters — not 140 — before submission: the submitted description field is
the 80-character prefix. -/
theorem C9_description_truncated (name : List Char) (status : Status)
    (description url : List Char) :
    (post_commit_status_fields name status description url)[2]? =
      some ("description=".toList ++ List.take 80 description) ∧
    List.take 80 description <+: description ∧
    (List.take 80 description).length ≤ 80 ∧
    post_foreign_commit_status_fields name status description url =
      post_commit_status_fields name status description url := by
  refine ⟨rfl, List.take_prefix _ _, ?_, rfl⟩
  simp only [List.length_take]
  omega

/-- Counterexample to C9 as stated: a 100-character description is submitted
as its 80-character prefix, not as its (identity) 140-character truncation. -/
theorem C9_counterexample :
    (post_commit_status_fields ("ci".toList) Status.success
      (List.replicate 100 'a') ("u".toList))[2]? ≠
    some ("description=".toList ++
      List.take 140 (List.replicate 100 'a')) := by
  decide

/-! ## post_pr_comment fallback -/

/-- C10: with a nonempty update-substring, when no fetched comment's body
contains the substring — including the degenerate cases where the response is
blank or fails to parse, which degrade to an empty comment list — the
function falls through to creating a new PR comment. -/
theorem C10_fallback_new_comment (substr raw : List Char)
    (parseComments : List Char → Option (List RComment))
    (hsub : substr ≠ [])
    (hno : ∀ c ∈ (if pyStrip raw = [] then []
        else (parseComments raw).getD []),
      containsSub c.body substr = false) :
    post_pr_comment substr raw parseComments = PRCommentAction.newComment := by
  have hse : substr.isEmpty = false := by
    cases substr
    · exact absurd rfl hsub
    · rfl
  simp only [post_pr_comment, hse, Bool.false_eq_true, if_false]
  have hfind : (if pyStrip raw = [] then []
      else (parseComments raw).getD []).find?
      (fun c => containsSub c.body substr) = none := by
    rw [List.find?_eq_none]
    intro c hc
    simp [hno c hc]
  rw [hfind]

/-- Witness for C10: an unparseable response and the substring `xyz` produce
a new comment. -/
theorem C10_fallback_new_comment_witness :
    (("xyz".toList : List Char) ≠ [] ∧
     (∀ c ∈ (if pyStrip ("nonsense".toList) = [] then []
         else (((fun (_ : List Char) =>
           (none : Option (List RComment)))) ("nonsense".toList)).getD []),
       containsSub c.body ("xyz".toList) = false)) ∧
    post_pr_comment ("xyz".toList) ("nonsense".toList) (fun _ => none) =
      PRCommentAction.newComment :=
  ⟨⟨by decide, by decide⟩,
   C10_fallback_new_comment ("xyz".toList) ("nonsense".toList) (fun _ => none)
     (by decide) (by decide)⟩

/-! ## Stable sort characterization -/

theorem insertStable_skip (key : Result → Nat) (x : Result) (P Q : List Result)
    (hP : ∀ y ∈ P, key y < key x) :
    insertStable key x (P ++ Q) = P ++ insertStable key x Q := by
  induction P with
  | nil => rfl
  | cons p P ih =>
    have hp := hP p (by simp)
    simp only [List.cons_append, insertStable, if_pos hp, List.append_eq]
    rw [ih (fun y hy => hP y (by simp [hy]))]

theorem insertStable_front (key : Result → Nat) (x : Result) (Q : List Result)
    (hQ : ∀ y ∈ Q, ¬ key y < key x) :
    insertStable key x Q = x :: Q := by
  cases Q with
  | nil => rfl
  | cons q Q =>
    have hq := hQ q (by simp)
    simp [insertStable, hq]

theorem priority_cases (r : Result) :
    priority r = 0 ∨ priority r = 1 ∨ priority r = 2 := by
  rw [priority]
  split
  · left; rfl
  · split
    · right; left; rfl
    · right; right; rfl

theorem stableSort_tri (l : List Result) :
    stableSortByKey priority l =
      l.filter (fun r => priority r == 0) ++
      (l.filter (fun r => priority r == 1) ++
       l.filter (fun r => priority r == 2)) := by
  induction l with
  | nil => rfl
  | cons x l ih =>
    have hstep : stableSortByKey priority (x :: l) =
        insertStable priority x (stableSortByKey priority l) := rfl
    rw [hstep, ih]
    have hmem0 : ∀ y ∈ l.filter (fun r => priority r == 0),
        priority y = 0 := by
      intro y hy
      have := (List.mem_filter.mp hy).2
      simpa using this
    have hmem1 : ∀ y ∈ l.filter (fun r => priority r == 1),
        priority y = 1 := by
      intro y hy
      have := (List.mem_filter.mp hy).2
      simpa using this
    have hmem2 : ∀ y ∈ l.filter (fun r => priority r == 2),
        priority y = 2 := by
      intro y hy
      have := (List.mem_filter.mp hy).2
      simpa using this
    rcases priority_cases x with hx | hx | hx
    · have hfront : insertStable priority x
          (l.filter (fun r => priority r == 0) ++
            (l.filter (fun r => priority r == 1) ++
             l.filter (fun r => priority r == 2))) =
          x :: (l.filter (fun r => priority r == 0) ++
            (l.filter (fun r => priority r == 1) ++
             l.filter (fun r => priority r == 2))) := by
        apply insertStable_front
        intro y hy
        rw [hx]
        omega
      rw [hfront]
      simp [List.filter_cons, hx]
    · have hskip : insertStable priority x
          (l.filter (fun r => priority r == 0) ++
            (l.filter (fun r => priority r == 1) ++
             l.filter (fun r => priority r == 2))) =
          l.filter (fun r => priority r == 0) ++
            insertStable priority x
              (l.filter (fun r => priority r == 1) ++
               l.filter (fun r => priority r == 2)) := by
        apply insertStable_skip
        intro y hy
        rw [hmem0 y hy, hx]
        omega
      rw [hskip]
      have hfront : insertStable priority x
          (l.filter (fun r => priority r == 1) ++
           l.filter (fun r => priority r == 2)) =
          x :: (l.filter (fun r => priority r == 1) ++
            l.filter (fun r => priority r == 2)) := by
        apply insertStable_front
        intro y hy
        rcases List.mem_append.mp hy with hy1 | hy2
        · rw [hmem1 y hy1, hx]
          omega
        · rw [hmem2 y hy2, hx]
          omega
      rw [hfront]
      simp [List.filter_cons, hx]
    · have hskip : insertStable priority x
          (l.filter (fun r => priority r == 0) ++
            (l.filter (fun r => priority r == 1) ++
             l.filter (fun r => priority r == 2))) =
          l.filter (fun r => priority r == 0) ++
            insertStable priority x
              (l.filter (fun r => priority r == 1) ++
               l.filter (fun r => priority r == 2)) := by
        apply insertStable_skip
        intro y hy
        rw [hmem0 y hy, hx]
        omega
      rw [hskip]
      have hskip2 : insertStable priority x
          (l.filter (fun r => priority r == 1) ++
           l.filter (fun r => priority r == 2)) =
          l.filter (fun r => priority r == 1) ++
            insertStable priority x (l.filter (fun r => priority r == 2)) := by
        apply insertStable_skip
        intro y hy
        rw [hmem1 y hy, hx]
        omega
      rw [hskip2]
      have hfront : insertStable priority x
          (l.filter (fun r => priority r == 2)) =
          x :: l.filter (fun r => priority r == 2) := by
        apply insertStable_front
        intro y hy
        rw [hmem2 y hy, hx]
        omega
      rw [hfront]
      simp [List.filter_cons, hx]

theorem priority_beq_zero (r : Result) :
    (priority r == 0) = (r.status == Status.failed) := by
  by_cases h1 : r.status = Status.failed
  · simp [priority, h1]
  · by_cases h2 : r.status = Status.error
    · simp [priority, h1, h2]
    · simp [priority, h1, h2]

theorem priority_beq_one (r : Result) :
    (priority r == 1) = (r.status == Status.error) := by
  by_cases h1 : r.status = Status.failed
  · simp [priority, h1]
  · by_cases h2 : r.status = Status.error
    · simp [priority, h1, h2]
    · simp [priority, h1, h2]

theorem priority_beq_two (r : Result) :
    (priority r == 2) =
      (r.status != Status.failed && r.status != Status.error) := by
  by_cases h1 : r.status = Status.failed
  · simp [priority, h1]
  · by_cases h2 : r.status = Status.error
    · simp [priority, h1, h2]
    · simp [priority, h1, h2]

theorem from_result_failed (result : Result) (sha : List Char) :
    (from_result result sha).failed_results =
      ((stableSortByKey priority
        (result.results.filter (fun r => is_completed r && !is_ok r))).map
        jobSummary).take MAX_JOBS_PER_SUMMARY := by
  simp only [from_result, ResultSummaryForGH.failed_results]
  by_cases h : ((stableSortByKey priority
      (result.results.filter (fun r => is_completed r && !is_ok r))).map
      jobSummary).length > MAX_JOBS_PER_SUMMARY
  · rw [if_pos h]
  · rw [if_neg h, List.take_of_length_le (by omega)]

/-- C4: the failing list of `from_result` consists of the completed-and-not-ok
immediate children, FAILED first, then ERROR, then any other
completed-not-ok status, each group keeping the original relative order
(the capped first 15 are shown, per the separate jobs cap); in particular a
root with children statuses SUCCESS, FAILED, ERROR, FAILED reduces to the
failing list FAILED, FAILED, ERROR with the two FAILED children in their
original order. -/
theorem C4_severity_sorted (result : Result) (sha : List Char) :
    (from_result result sha).failed_results =
      (((result.results.filter (fun r => is_completed r && !is_ok r)).filter
          (fun r => r.status == Status.failed) ++
        ((result.results.filter (fun r => is_completed r && !is_ok r)).filter
          (fun r => r.status == Status.error) ++
         (result.results.filter (fun r => is_completed r && !is_ok r)).filter
          (fun r => r.status != Status.failed &&
            r.status != Status.error))).map jobSummary).take
        MAX_JOBS_PER_SUMMARY ∧
    (from_result
        (Result.mk ("root".toList) Status.failed
          [Result.mk ("n1".toList) Status.success [] none none [],
           Result.mk ("n2".toList) Status.failed [] none none [],
           Result.mk ("n3".toList) Status.error [] none none [],
           Result.mk ("n4".toList) Status.failed [] none none []]
          none none [])
        ("sha".toList)).failed_results.map
      (fun f => (f.name, f.status)) =
      [("n2".toList, Status.failed), ("n4".toList, Status.failed),
       ("n3".toList, Status.error)] := by
  constructor
  · rw [from_result_failed, stableSort_tri,
      List.filter_congr (fun r _ => priority_beq_zero r),
      List.filter_congr (fun r _ => priority_beq_one r),
      List.filter_congr (fun r _ => priority_beq_two r)]
  · decide

/-- C5: for a selected failing job whose depth-first flatten yields more than
10 completed-and-not-ok leaf descendants, the job's entry keeps the first 10
leaf entries and appends exactly one synthetic placeholder naming the hidden
count (so 11 entries in total); and every entry of the summary's failing list
is exactly the job summary of the corresponding sorted failing child (capped
at 15 jobs). -/
theorem C5_test_case_cap :
    (∀ sub : Result,
      (((flatten_results sub.results).filter
          (fun r => is_completed r && !is_ok r)).map entryOf).length >
        MAX_TEST_CASES_PER_JOB →
      (jobSummary sub).failed_results =
        (((flatten_results sub.results).filter
            (fun r => is_completed r && !is_ok r)).map entryOf).take
          MAX_TEST_CASES_PER_JOB ++
        [ResultSummaryForGH.mk
          (sentinelName
            ((((flatten_results sub.results).filter
                (fun r => is_completed r && !is_ok r)).map entryOf).length -
              MAX_TEST_CASES_PER_JOB))
          Status.blank [] none none [] [] []] ∧
      (jobSummary sub).failed_results.length = MAX_TEST_CASES_PER_JOB + 1) ∧
    (∀ (result : Result) (sha : List Char),
      (from_result result sha).failed_results =
        ((stableSortByKey priority
          (result.results.filter (fun r => is_completed r && !is_ok r))).map
          jobSummary).take MAX_JOBS_PER_SUMMARY) := by
  constructor
  · intro sub h
    have heq : (jobSummary sub).failed_results =
        (((flatten_results sub.results).filter
            (fun r => is_completed r && !is_ok r)).map entryOf).take
          MAX_TEST_CASES_PER_JOB ++
        [ResultSummaryForGH.mk
          (sentinelName
            ((((flatten_results sub.results).filter
                (fun r => is_completed r && !is_ok r)).map entryOf).length -
              MAX_TEST_CASES_PER_JOB))
          Status.blank [] none none [] [] []] := by
      simp only [jobSummary, ResultSummaryForGH.failed_results]
      rw [if_pos h]
    refine ⟨heq, ?_⟩
    rw [heq]
    simp only [List.length_append, List.length_take, List.length_cons,
      List.length_nil, MAX_TEST_CASES_PER_JOB] at h ⊢
    omega
  · exact from_result_failed

/-- Witness for C5: a job with 12 failing leaf children keeps 10 entries and
appends the placeholder `2 more not shown`. -/
theorem C5_test_case_cap_witness :
    ((((flatten_results (Result.mk ("j".toList) Status.failed
        ((List.range 12).map (fun i =>
          Result.mk ((Nat.repr i).toList) Status.failed [] none none []))
        none none []).results).filter
        (fun r => is_completed r && !is_ok r)).map entryOf).length >
      MAX_TEST_CASES_PER_JOB) ∧
    ((jobSummary (Result.mk ("j".toList) Status.failed
        ((List.range 12).map (fun i =>
          Result.mk ((Nat.repr i).toList) Status.failed [] none none []))
        none none [])).failed_results =
      (((flatten_results (Result.mk ("j".toList) Status.failed
          ((List.range 12).map (fun i =>
            Result.mk ((Nat.repr i).toList) Status.failed [] none none []))
          none none []).results).filter
          (fun r => is_completed r && !is_ok r)).map entryOf).take
        MAX_TEST_CASES_PER_JOB ++
      [ResultSummaryForGH.mk
        (sentinelName
          ((((flatten_results (Result.mk ("j".toList) Status.failed
              ((List.range 12).map (fun i =>
                Result.mk ((Nat.repr i).toList) Status.failed [] none none []))
              none none []).results).filter
              (fun r => is_completed r && !is_ok r)).map entryOf).length -
            MAX_TEST_CASES_PER_JOB))
        Status.blank [] none none [] [] []] ∧
     (jobSummary (Result.mk ("j".toList) Status.failed
        ((List.range 12).map (fun i =>
          Result.mk ((Nat.repr i).toList) Status.failed [] none none []))
        none none [])).failed_results.length = MAX_TEST_CASES_PER_JOB + 1) ∧
    ((jobSummary (Result.mk ("j".toList) Status.failed
        ((List.range 12).map (fun i =>
          Result.mk ((Nat.repr i).toList) Status.failed [] none none []))
        none none [])).failed_results.map
      ResultSummaryForGH.name).getLast? = some ("2 more not shown".toList) :=
  ⟨by decide,
   C5_test_case_cap.1
     (Result.mk ("j".toList) Status.failed
       ((List.range 12).map (fun i =>
         Result.mk ((Nat.repr i).toList) Status.failed [] none none []))
       none none [])
     (by decide),
   by decide⟩

/-- C6 (amended): when more than 15 failing children are selected,
`from_result` keeps the first 15 and drops the rest (they are only logged);
the rendered markdown of any `from_result` summary, however, never carries
the truncation note line, because `to_markdown` emits it only when its own
failing list exceeds 15 entries and `from_result` always returns at most 15. -/
theorem C6_jobs_cap :
    (∀ (result : Result) (sha : List Char),
      ((stableSortByKey priority (result.results.filter
          (fun r => is_completed r && !is_ok r))).map jobSummary).length >
        MAX_JOBS_PER_SUMMARY →
      (from_result result sha).failed_results =
        ((stableSortByKey priority (result.results.filter
            (fun r => is_completed r && !is_ok r))).map jobSummary).take
          MAX_JOBS_PER_SUMMARY ∧
      (from_result result sha).failed_results.length =
        MAX_JOBS_PER_SUMMARY) ∧
    (∀ (result : Result) (sha : List Char),
      (from_result result sha).failed_results.length ≤ 15) ∧
    (∀ (result : Result) (sha : List Char)
        (getUrl : List Char → List Char),
      to_markdown (from_result result sha) getUrl =
        "**Summary:** ".toList ++
          statusSymbol (from_result result sha).status ++ "\n".toList ++
        (if (from_result result sha).failed_results.isEmpty then []
         else tableFor getUrl (from_result result sha).failed_results)) := by
  have hlen : ∀ (result : Result) (sha : List Char),
      (from_result result sha).failed_results.length ≤ 15 := by
    intro result sha
    rw [from_result_failed, List.length_take,
      show MAX_JOBS_PER_SUMMARY = 15 from rfl]
    omega
  refine ⟨?_, hlen, ?_⟩
  · intro result sha h
    have heq : (from_result result sha).failed_results =
        ((stableSortByKey priority (result.results.filter
            (fun r => is_completed r && !is_ok r))).map jobSummary).take
          MAX_JOBS_PER_SUMMARY := from_result_failed result sha
    refine ⟨heq, ?_⟩
    rw [heq]
    exact List.length_take_of_le (le_of_lt h)
  · intro result sha getUrl
    have hcond : ¬ (15 < (from_result result sha).failed_results.length) := by
      have := hlen result sha
      omega
    simp only [to_markdown, if_neg hcond, List.nil_append]

set_option maxRecDepth 400000 in
/-- Counterexample to C6 as stated: a root with 16 failing children is
truncated to 15 jobs, yet the rendered markdown carries no leading truncation
note — the text `*15 out of` appears nowhere in it. -/
theorem C6_counterexample :
    ¬ (containsSub
        (to_markdown
          (from_result
            (Result.mk ("r".toList) Status.failed
              ((List.range 16).map (fun i =>
                Result.mk ((Nat.repr i).toList) Status.failed [] none none []))
              none none [])
            ("s".toList))
          (fun _ => []))
        (" *15 out of ".toList) = true) := by
  decide

set_option maxRecDepth 400000 in
/-- Witness for C6: the 16-job tree keeps exactly the first 15 entries. -/
theorem C6_jobs_cap_witness :
    (((stableSortByKey priority
        ((Result.mk ("r".toList) Status.failed
          ((List.range 16).map (fun i =>
            Result.mk ((Nat.repr i).toList) Status.failed [] none none []))
          none none []).results.filter
          (fun r => is_completed r && !is_ok r))).map jobSummary).length >
      MAX_JOBS_PER_SUMMARY) ∧
    ((from_result
        (Result.mk ("r".toList) Status.failed
          ((List.range 16).map (fun i =>
            Result.mk ((Nat.repr i).toList) Status.failed [] none none []))
          none none [])
        ("s".toList)).failed_results =
      ((stableSortByKey priority
        ((Result.mk ("r".toList) Status.failed
          ((List.range 16).map (fun i =>
            Result.mk ((Nat.repr i).toList) Status.failed [] none none []))
          none none []).results.filter
          (fun r => is_completed r && !is_ok r))).map jobSummary).take
        MAX_JOBS_PER_SUMMARY ∧
     (from_result
        (Result.mk ("r".toList) Status.failed
          ((List.range 16).map (fun i =>
            Result.mk ((Nat.repr i).toList) Status.failed [] none none []))
          none none [])
        ("s".toList)).failed_results.length = MAX_JOBS_PER_SUMMARY) :=
  ⟨by decide,
   C6_jobs_cap.1
     (Result.mk ("r".toList) Status.failed
       ((List.range 16).map (fun i =>
         Result.mk ((Nat.repr i).toList) Status.failed [] none none []))
       none none [])
     ("s".toList) (by decide)⟩
